import Mathlib

/-!
Shallow embedding of the `smith_address` crate: 32-byte addresses that are
either Immediate (payload stored inline) or Reference (external), together
with the encode/decode/dispatch operations and the theorems that settle the
specification claims.

A byte is modelled as a `Nat` below 256 and an address as a `List Nat` of
length 32.  Partial-function behaviour (`Option` in Rust) is modelled with
`Option`; the `Result<&Immediate, &Reference>` of the `Address` dispatch is
modelled with `Except`, whose `ok` side carries the Immediate view and whose
`error` side carries the Reference view, both being the same underlying
bytes.
-/

namespace SmithAddress

/-- The bytes of a value are well formed when there are exactly 32 of them and
each one fits in an octet. -/
def IsBytes32 (b : List Nat) : Prop := b.length = 32 ∧ ∀ x ∈ b, x < 256

instance (b : List Nat) : Decidable (IsBytes32 b) := by
  unfold IsBytes32; infer_instance

namespace Immediate

/-- `Immediate::EMPTY` from `immediate.rs`: the literal 32-byte array, all
zero except the final metadata byte `1`. -/
def EMPTY : List Nat :=
  [0, 0, 0, 0, 0, 0, 0, 0,
   0, 0, 0, 0, 0, 0, 0, 0,
   0, 0, 0, 0, 0, 0, 0, 0,
   0, 0, 0, 0, 0, 0, 0, 1]

/-- The metadata-byte test of `Immediate::from_bytes`:
`bytes[31] & 0b1_00000_11 != 0b0_00000_01` rejects the address.  This
function returns `true` when the metadata byte passes the check. -/
def metaOk (m : Nat) : Bool := m &&& 0b10000011 == 0b00000001

/-- `Immediate::from_bytes` from `immediate.rs`.  It checks the metadata
byte with `metaOk`, computes `len = bytes[31] >> 2`, and rejects the input
when any byte of `bytes[len .. 32]` is nonzero; note that this range is
`drop len`, which runs to the end of the 32-byte array and therefore
includes the metadata byte itself, exactly as the source slice
`bytes[len as usize .. 32]` does. -/
def from_bytes (b : List Nat) : Option (List Nat) :=
  if !metaOk (b.getD 31 0) then none
  else if (b.drop (b.getD 31 0 >>> 2)).any (fun x => x != 0) then none
  else some b

/-- `Immediate::from_auxiliary` from `immediate.rs`: reject payloads longer
than 31 bytes, otherwise emit the payload, then zero padding up to index 30,
then the metadata byte `(len << 2) | 0b01`. -/
def from_auxiliary (a : List Nat) : Option (List Nat) :=
  if a.length > 31 then none
  else some (a ++ List.replicate (31 - a.length) 0 ++ [a.length <<< 2 ||| 0b01])

/-- The auxiliary length computed by `Immediate::auxiliary` and
`Immediate::auxiliary_mut`: `self.bytes[31] >> 2`. -/
def auxLen (b : List Nat) : Nat := b.getD 31 0 >>> 2

/-- `Immediate::auxiliary` from `immediate.rs`: the prefix
`bytes[0 .. len]` with `len = bytes[31] >> 2`. -/
def auxiliary (b : List Nat) : List Nat := b.take (auxLen b)

/-- One store through the slice returned by `Immediate::auxiliary_mut`: the
slice covers `bytes[0 .. len]` with `len = bytes[31] >> 2`, so a write at
slice index `i` updates byte `i` when `i < len` and is impossible (modelled
as a no-op) otherwise. -/
def writeAux (b : List Nat) (i v : Nat) : List Nat :=
  if i < auxLen b then b.set i v else b

/-- A sequence of stores through the `auxiliary_mut` slice, applied left to
right. -/
def writeAuxSeq (b : List Nat) (ws : List (Nat × Nat)) : List Nat :=
  ws.foldl (fun acc w => writeAux acc w.1 w.2) b

end Immediate

namespace Address

/-- `Address::as_bytes` from `lib.rs`: the union exposes its 32 raw bytes. -/
def as_bytes (b : List Nat) : List Nat := b

/-- `Address::as_immediate` from `lib.rs`: dispatch on `bytes[31] & 0b1`;
`0` yields the Immediate view (`ok`), anything else the Reference view
(`error`).  Both views are of the same underlying bytes. -/
def as_immediate (b : List Nat) : Except (List Nat) (List Nat) :=
  if b.getD 31 0 &&& 0b1 == 0 then Except.ok b else Except.error b

/-- `Address::as_external` from `lib.rs`: defined by flipping the result of
`as_immediate`. -/
def as_external (b : List Nat) : Except (List Nat) (List Nat) :=
  match as_immediate b with
  | Except.ok immediate => Except.error immediate
  | Except.error reference => Except.ok reference

/-- `impl PartialEq for Address` from `lib.rs`: two addresses are equal when
`as_bytes` of one equals `as_bytes` of the other. -/
def beq (x y : List Nat) : Bool := as_bytes x == as_bytes y

/-- Whether an `Except`-modelled Rust `Result` is the `Ok` variant. -/
def isOkE {ε α : Type} : Except ε α → Bool
  | Except.ok _ => true
  | Except.error _ => false

end Address

/-- Modelled from the spec (for comparison against `Immediate.from_bytes`):
the Immediate layout invariants — bit 7 of byte 31 is 0, bit 1 of byte 31 is
0, bit 0 of byte 31 is 1, and every byte at an index in `L .. 31` is zero,
where `L` is the five-bit length held in bits 6..2 of byte 31. -/
def specImmediateValid (b : List Nat) : Prop :=
  Nat.testBit (b.getD 31 0) 7 = false ∧
  Nat.testBit (b.getD 31 0) 1 = false ∧
  Nat.testBit (b.getD 31 0) 0 = true ∧
  ∀ i, i < 31 → Immediate.auxLen b ≤ i → b.getD i 0 = 0

instance (b : List Nat) : Decidable (specImmediateValid b) := by
  unfold specImmediateValid; infer_instance

end SmithAddress

namespace SmithAddress

open Immediate Address

set_option maxRecDepth 8192 in
/-- Every byte passing the metadata check of `from_bytes` has bit 0 set, is
below 128 (bit 7 clear), and yields a shifted length of at most 31. -/
lemma meta_byte_facts :
    ∀ m, m < 256 → metaOk m = true → m % 2 = 1 ∧ m < 128 ∧ m >>> 2 ≤ 31 := by
  decide

/-- The metadata byte written by `from_auxiliary`, `(L << 2) | 0b01`, equals
`4 * L + 1` for every length that fits in five bits. -/
lemma shl2_or1 : ∀ L, L < 32 → L <<< 2 ||| 0b01 = 4 * L + 1 := by
  decide

/-- On a payload of admissible length, `from_auxiliary` returns exactly the
payload, the zero padding, and the metadata byte `4 * L + 1`. -/
lemma from_auxiliary_eq (a : List Nat) (h : a.length ≤ 31) :
    from_auxiliary a
      = some (a ++ List.replicate (31 - a.length) 0 ++ [4 * a.length + 1]) := by
  unfold from_auxiliary
  rw [if_neg (by omega), shl2_or1 a.length (by omega)]

/-- The encoded address has exactly 32 bytes. -/
lemma enc_length (a : List Nat) (h : a.length ≤ 31) :
    (a ++ List.replicate (31 - a.length) 0 ++ [4 * a.length + 1]).length = 32 := by
  simp only [List.length_append, List.length_replicate, List.length_cons,
    List.length_nil]
  omega

/-- Byte 31 of the encoded address is the metadata byte. -/
lemma enc_getD_31 (a : List Nat) (h : a.length ≤ 31) :
    (a ++ List.replicate (31 - a.length) 0 ++ [4 * a.length + 1]).getD 31 0
      = 4 * a.length + 1 := by
  rw [List.append_assoc]
  rw [List.getD_append_right _ _ _ _ (by omega)]
  rw [List.getD_append_right _ _ _ _ (by simp <;> omega)]
  simp

/-- The bytes of the encoded address between the payload and the metadata
byte are all zero. -/
lemma enc_getD_pad (a : List Nat) (h : a.length ≤ 31)
    (i : Nat) (hi : i < 31) (hla : a.length ≤ i) :
    (a ++ List.replicate (31 - a.length) 0 ++ [4 * a.length + 1]).getD i 0 = 0 := by
  rw [List.append_assoc]
  rw [List.getD_append_right _ _ _ _ (by omega)]
  rw [List.getD_append _ _ _ _ (by simp <;> omega)]
  rw [List.getD_eq_getElem _ _ (by simp <;> omega)]
  simp

/-- The first `L` bytes of the encoded address are the payload. -/
lemma enc_take (a : List Nat) (h : a.length ≤ 31) :
    (a ++ List.replicate (31 - a.length) 0 ++ [4 * a.length + 1]).take a.length
      = a := by
  rw [List.append_assoc]
  exact List.take_left a _

/-- `from_bytes` rejects every well-formed 32-byte input: whenever the
metadata check passes, the metadata byte itself is nonzero (its bit 0 is
set) and lies inside the scanned range `bytes[len .. 32]`, so the padding
scan always fails. -/
lemma from_bytes_always_none (b : List Nat)
    (h32 : b.length = 32) (hbytes : ∀ x ∈ b, x < 256) :
    from_bytes b = none := by
  cases hm : metaOk (b.getD 31 0) with
  | false =>
    unfold from_bytes
    rw [hm]
    rfl
  | true =>
    have hmem : b.getD 31 0 ∈ b := by
      rw [List.getD_eq_getElem _ _ (by omega)]
      exact List.getElem_mem _
    obtain ⟨hodd, hlt, hshift⟩ := meta_byte_facts _ (hbytes _ hmem) hm
    have hidx : b.getD 31 0 >>> 2 + (31 - b.getD 31 0 >>> 2) = 31 := by omega
    have hq : (b.drop (b.getD 31 0 >>> 2))[31 - b.getD 31 0 >>> 2]? = b[31]? := by
      rw [List.getElem?_drop, hidx]
    have h31 : b[31]? = some (b.getD 31 0) := by
      rw [List.getD_eq_getElem _ _ (by omega)]
      exact List.getElem?_eq_getElem (by omega)
    have hmem2 : b.getD 31 0 ∈ b.drop (b.getD 31 0 >>> 2) :=
      List.getElem?_mem (hq.trans h31)
    have hany : (b.drop (b.getD 31 0 >>> 2)).any (fun x => x != 0) = true := by
      rw [List.any_eq_true]
      exact ⟨b.getD 31 0, hmem2, by simpa using (by omega : b.getD 31 0 ≠ 0)⟩
    unfold from_bytes
    rw [hm, hany]
    rfl

/-- Claim C1 (refuted on the code): decoding the encoder's output fails.
`from_auxiliary` on the payload `[0, 0, 0, 1]` succeeds, yet `from_bytes`
on the resulting 32 bytes returns `none`, because the padding scan of
`from_bytes` covers `bytes[len .. 32]` and therefore also the (nonzero)
metadata byte. -/
theorem C1_roundtrip_fails :
    from_auxiliary [0, 0, 0, 1] ≠ none ∧
    (from_auxiliary [0, 0, 0, 1]).bind from_bytes = none := by
  decide

/-- Claim C2 (refuted on the code): the bytes of `EMPTY` satisfy every
Immediate layout invariant stated by the spec, yet `from_bytes` rejects
them; indeed `from_bytes` rejects every 32-byte input. -/
theorem C2_valid_layout_rejected :
    specImmediateValid EMPTY ∧ IsBytes32 EMPTY ∧ from_bytes EMPTY = none := by
  decide

/-- Claim C3 (refuted on the code): the encoder tags its output with bit 0
of byte 31 set, but `Address::as_immediate` yields the Immediate view only
when that bit is clear, so an encoded Immediate is classified as a
Reference: `as_immediate` on the bytes of `from_auxiliary []` returns the
`error` (Reference-view) branch. -/
theorem C3_encoded_classified_as_reference :
    from_auxiliary [] = some EMPTY ∧
    as_immediate EMPTY = Except.error EMPTY := by
  constructor
  · decide
  · rfl

/-- Claim C6 (refuted on the code): the canonical Immediate bytes produced
by the encoder carry tag bit 1 — the Reference tag — so they are
byte-identical (under the `Address` byte equality) to a Reference made of
the same bytes; meanwhile `from_bytes`, the claim's acceptance predicate,
rejects even these bytes. -/
theorem C6_immediate_reference_collision :
    from_auxiliary [] = some EMPTY ∧
    EMPTY.getD 31 0 &&& 0b1 = 1 ∧
    Address.beq EMPTY EMPTY = true ∧
    from_bytes EMPTY = none := by
  decide

/-- Claim C9: `EMPTY.auxiliary()` is the empty sequence, and the raw bytes
of `EMPTY` are 32 bytes, all zero except byte 31, which is `0x01`. -/
theorem C9_EMPTY_contract :
    auxiliary EMPTY = [] ∧ EMPTY.length = 32 ∧
    (∀ i, i < 31 → EMPTY.getD i 0 = 0) ∧ EMPTY.getD 31 0 = 0x01 := by
  decide

/-- Claim C4: for any 32 bytes, exactly one of `as_immediate` and
`as_external` succeeds, decided solely by bit 0 of byte 31: `as_immediate`
succeeds iff that bit is 0, `as_external` succeeds iff it is 1, and each
operation on failure returns the complementary view of the same bytes. -/
theorem C4_kind_discrimination (b : List Nat) :
    (isOkE (as_immediate b) = true ↔ b.getD 31 0 &&& 0b1 = 0) ∧
    (isOkE (as_external b) = true ↔ b.getD 31 0 &&& 0b1 = 1) ∧
    isOkE (as_external b) = !isOkE (as_immediate b) ∧
    (b.getD 31 0 &&& 0b1 = 0 →
      as_immediate b = Except.ok b ∧ as_external b = Except.error b) ∧
    (b.getD 31 0 &&& 0b1 = 1 →
      as_immediate b = Except.error b ∧ as_external b = Except.ok b) := by
  have hand : b.getD 31 0 &&& 1 = b.getD 31 0 % 2 := Nat.and_one_is_mod _
  rcases Nat.mod_two_eq_zero_or_one (b.getD 31 0) with h | h
  · have hi : as_immediate b = Except.ok b := by
      unfold as_immediate
      rw [if_pos (by rw [hand, h]; decide)]
    have he : as_external b = Except.error b := by
      unfold as_external
      rw [hi]
    refine ⟨?_, ?_, ?_, ?_, ?_⟩
    · rw [hi]
      exact ⟨fun _ => by rw [hand, h], fun _ => rfl⟩
    · rw [he]
      constructor
      · intro hf
        exact Bool.noConfusion hf
      · intro h1
        rw [hand] at h1
        omega
    · rw [hi, he]
      rfl
    · intro hbit
      exact ⟨hi, he⟩
    · intro hbit
      rw [hand] at hbit
      omega
  · have hi : as_immediate b = Except.error b := by
      unfold as_immediate
      rw [if_neg (by rw [hand, h]; decide)]
    have he : as_external b = Except.ok b := by
      unfold as_external
      rw [hi]
    refine ⟨?_, ?_, ?_, ?_, ?_⟩
    · rw [hi]
      constructor
      · intro hf
        exact Bool.noConfusion hf
      · intro h0
        rw [hand] at h0
        omega
    · rw [he]
      exact ⟨fun _ => by rw [hand, h], fun _ => rfl⟩
    · rw [hi, he]
      rfl
    · intro hbit
      rw [hand] at hbit
      omega
    · intro hbit
      exact ⟨hi, he⟩

/-- Witness for C4 at two concrete addresses, one per tag-bit value. -/
theorem C4_kind_discrimination_witness :
    as_immediate (List.replicate 32 0) = Except.ok (List.replicate 32 0) ∧
    as_external EMPTY = Except.ok EMPTY :=
  ⟨((C4_kind_discrimination (List.replicate 32 0)).2.2.2.1 (by decide)).1,
   ((C4_kind_discrimination EMPTY).2.2.2.2 (by decide)).2⟩

/-- Claim C5: `from_auxiliary` returns nothing exactly on payloads longer
than 31 bytes; on any admissible payload it returns 32 bytes consisting of
the payload, zero padding, and metadata byte `(L << 2) | 0b01`. -/
theorem C5_encode_layout (a : List Nat) :
    (from_auxiliary a = none ↔ 31 < a.length) ∧
    (a.length ≤ 31 →
      ∃ o, from_auxiliary a = some o ∧
        o.length = 32 ∧
        o.take a.length = a ∧
        (∀ i, i < 31 → a.length ≤ i → o.getD i 0 = 0) ∧
        o.getD 31 0 = a.length <<< 2 ||| 0b01 ∧
        o.getD 31 0 = 4 * a.length + 1) := by
  constructor
  · constructor
    · intro h
      by_contra hlen
      rw [from_auxiliary_eq a (by omega)] at h
      exact Option.noConfusion h
    · intro h
      unfold from_auxiliary
      rw [if_pos (by omega)]
  · intro h
    refine ⟨_, from_auxiliary_eq a h, enc_length a h, enc_take a h, ?_, ?_, ?_⟩
    · intro i hi hla
      exact enc_getD_pad a h i hi hla
    · rw [enc_getD_31 a h, shl2_or1 a.length (by omega)]
    · exact enc_getD_31 a h

/-- Witness for C5: a 32-byte payload is rejected, and a 13-byte payload is
laid out with metadata byte `0x35`. -/
theorem C5_encode_layout_witness :
    from_auxiliary (List.replicate 32 7) = none ∧
    (∃ o, from_auxiliary (List.replicate 13 7) = some o ∧
      o.length = 32 ∧
      o.take (List.replicate 13 7).length = List.replicate 13 7 ∧
      (∀ i, i < 31 → (List.replicate 13 7).length ≤ i → o.getD i 0 = 0) ∧
      o.getD 31 0 = (List.replicate 13 7).length <<< 2 ||| 0b01 ∧
      o.getD 31 0 = 4 * (List.replicate 13 7).length + 1) :=
  ⟨(C5_encode_layout (List.replicate 32 7)).1.mpr (by decide),
   (C5_encode_layout (List.replicate 13 7)).2 (by decide)⟩

/-- Claim C7: encoding is injective on admissible payloads — two encoded
addresses are byte-identical exactly when the payloads are equal. -/
theorem C7_encoding_injective (a1 a2 : List Nat)
    (h1 : a1.length ≤ 31) (h2 : a2.length ≤ 31) :
    from_auxiliary a1 = from_auxiliary a2 ↔ a1 = a2 := by
  constructor
  · intro h
    rw [from_auxiliary_eq a1 h1, from_auxiliary_eq a2 h2] at h
    have he := Option.some.inj h
    have h31 := congrArg (fun l : List Nat => l.getD 31 0) he
    simp only [] at h31
    rw [enc_getD_31 a1 h1, enc_getD_31 a2 h2] at h31
    have hlen : a1.length = a2.length := by omega
    have ht := congrArg (List.take a1.length) he
    rw [enc_take a1 h1] at ht
    rw [ht, hlen, enc_take a2 h2]
  · intro h
    rw [h]

/-- Witness for C7: distinct single-byte payloads encode to distinct
addresses. -/
theorem C7_encoding_injective_witness :
    from_auxiliary [1] ≠ from_auxiliary [2] :=
  fun h =>
    absurd ((C7_encoding_injective [1] [2] (by decide) (by decide)).mp h)
      (by decide)

/-- Writing at one index leaves every other index unchanged. -/
lemma getD_set_ne (l : List Nat) (i j v : Nat) (hij : i ≠ j) :
    (l.set i v).getD j 0 = l.getD j 0 := by
  rw [List.getD_eq_getElem?_getD, List.getD_eq_getElem?_getD,
    List.getElem?_set_ne hij]

/-- When bit 7 of the metadata byte is clear, the auxiliary length is at
most 31. -/
lemma auxLen_le_31 (b : List Nat) (h7 : b.getD 31 0 < 128) :
    auxLen b ≤ 31 := by
  unfold auxLen
  rw [Nat.shiftRight_eq_div_pow]
  have hp : (2 : Nat) ^ 2 = 4 := rfl
  rw [hp]
  omega

/-- One store through the `auxiliary_mut` slice preserves the list length,
the metadata byte, and every byte at an index at or beyond the auxiliary
length, provided bit 7 of the metadata byte is clear. -/
lemma writeAux_frame (b : List Nat) (i v : Nat) (h7 : b.getD 31 0 < 128) :
    (writeAux b i v).length = b.length ∧
    (writeAux b i v).getD 31 0 = b.getD 31 0 ∧
    ∀ j, auxLen b ≤ j → (writeAux b i v).getD j 0 = b.getD j 0 := by
  unfold writeAux
  by_cases hi : i < auxLen b
  · rw [if_pos hi]
    have hle := auxLen_le_31 b h7
    refine ⟨List.length_set .., ?_, ?_⟩
    · exact getD_set_ne b i 31 v (by omega)
    · intro j hj
      exact getD_set_ne b i j v (by omega)
  · rw [if_neg hi]
    exact ⟨rfl, rfl, fun j hj => rfl⟩

/-- A whole sequence of stores through the `auxiliary_mut` slice preserves
the list length, the metadata byte, and every byte at an index at or beyond
the auxiliary length. -/
lemma writeAuxSeq_frame (ws : List (Nat × Nat)) :
    ∀ b : List Nat, b.getD 31 0 < 128 →
      (writeAuxSeq b ws).length = b.length ∧
      (writeAuxSeq b ws).getD 31 0 = b.getD 31 0 ∧
      ∀ j, auxLen b ≤ j → (writeAuxSeq b ws).getD j 0 = b.getD j 0 := by
  induction ws with
  | nil =>
    intro b h7
    exact ⟨rfl, rfl, fun j hj => rfl⟩
  | cons w ws ih =>
    intro b h7
    have hstep := writeAux_frame b w.1 w.2 h7
    have hseq : writeAuxSeq b (w :: ws) = writeAuxSeq (writeAux b w.1 w.2) ws := rfl
    have h7n : (writeAux b w.1 w.2).getD 31 0 < 128 := by
      rw [hstep.2.1]
      exact h7
    have hrest := ih (writeAux b w.1 w.2) h7n
    have haux : auxLen (writeAux b w.1 w.2) = auxLen b := by
      unfold auxLen
      rw [hstep.2.1]
    refine ⟨?_, ?_, ?_⟩
    · rw [hseq, hrest.1, hstep.1]
    · rw [hseq, hrest.2.1, hstep.2.1]
    · intro j hj
      rw [hseq, hrest.2.2 j (by rw [haux]; exact hj), hstep.2.2 j hj]

/-- Claim C8: on an Immediate satisfying the layout invariants, any
sequence of stores through the `auxiliary_mut` slice leaves the length of
`auxiliary()` unchanged and leaves every byte at an index in `[L, 32)` —
the padding and the metadata byte — unchanged. -/
theorem C8_mutation_frame (b : List Nat) (ws : List (Nat × Nat))
    (h32 : b.length = 32) (hbytes : ∀ x ∈ b, x < 256)
    (hmeta : metaOk (b.getD 31 0) = true)
    (hpad : ∀ i, i < 31 → auxLen b ≤ i → b.getD i 0 = 0) :
    (auxiliary (writeAuxSeq b ws)).length = (auxiliary b).length ∧
    ∀ i, i < 32 → auxLen b ≤ i → (writeAuxSeq b ws).getD i 0 = b.getD i 0 := by
  have hmem : b.getD 31 0 ∈ b := by
    rw [List.getD_eq_getElem _ _ (by omega)]
    exact List.getElem_mem _
  have h7 : b.getD 31 0 < 128 := (meta_byte_facts _ (hbytes _ hmem) hmeta).2.1
  have hf := writeAuxSeq_frame ws b h7
  constructor
  · unfold auxiliary
    rw [List.length_take, List.length_take, hf.1]
    have haux : auxLen (writeAuxSeq b ws) = auxLen b := by
      unfold auxLen
      rw [hf.2.1]
    rw [haux]
  · intro i hi hle
    exact hf.2.2 i hle

/-- Witness for C8: three stores through the auxiliary slice of the encoded
two-byte payload `[7, 8]` (one of them out of range and hence a no-op)
leave the auxiliary length and the metadata byte untouched. -/
theorem C8_mutation_frame_witness :
    (auxiliary (writeAuxSeq ([7, 8] ++ List.replicate 29 0 ++ [9])
        [(0, 42), (1, 43), (5, 99)])).length
      = (auxiliary ([7, 8] ++ List.replicate 29 0 ++ [9])).length ∧
    (writeAuxSeq ([7, 8] ++ List.replicate 29 0 ++ [9])
        [(0, 42), (1, 43), (5, 99)]).getD 31 0
      = (([7, 8] ++ List.replicate 29 0 ++ [9]) : List Nat).getD 31 0 :=
  ⟨(C8_mutation_frame ([7, 8] ++ List.replicate 29 0 ++ [9])
      [(0, 42), (1, 43), (5, 99)]
      (by decide) (by decide) (by decide) (by decide)).1,
   (C8_mutation_frame ([7, 8] ++ List.replicate 29 0 ++ [9])
      [(0, 42), (1, 43), (5, 99)]
      (by decide) (by decide) (by decide) (by decide)).2 31 (by decide) (by decide)⟩

/-- Claim C10: the unchecked slice accesses of `auxiliary` and
`auxiliary_mut` stay inside the 32-byte array: whenever bit 7 of byte 31 is
clear — which holds both for any byte passing the metadata check of
`from_bytes` and for any output of `from_auxiliary` — the computed length
`bytes[31] >> 2` is at most 31, so taking `bytes[0 .. len]` reads exactly
`len` bytes of the array. -/
theorem C10_slice_in_bounds (b : List Nat)
    (h32 : b.length = 32) (hbytes : ∀ x ∈ b, x < 256)
    (hsrc : metaOk (b.getD 31 0) = true ∨ ∃ a, from_auxiliary a = some b) :
    b.getD 31 0 < 128 ∧ auxLen b ≤ 31 ∧ (auxiliary b).length = auxLen b := by
  have h7 : b.getD 31 0 < 128 := by
    rcases hsrc with hm | ⟨a, ha⟩
    · have hmem : b.getD 31 0 ∈ b := by
        rw [List.getD_eq_getElem _ _ (by omega)]
        exact List.getElem_mem _
      exact (meta_byte_facts _ (hbytes _ hmem) hm).2.1
    · have hle : a.length ≤ 31 := by
        by_contra hgt
        unfold from_auxiliary at ha
        rw [if_pos (by omega)] at ha
        exact Option.noConfusion ha
      rw [from_auxiliary_eq a hle] at ha
      have hb := Option.some.inj ha
      rw [← hb, enc_getD_31 a hle]
      omega
  have hlen : auxLen b ≤ 31 := auxLen_le_31 b h7
  refine ⟨h7, hlen, ?_⟩
  unfold auxiliary
  rw [List.length_take, h32]
  omega

/-- Witness for C10 at the canonical empty Immediate. -/
theorem C10_slice_in_bounds_witness :
    EMPTY.getD 31 0 < 128 ∧ auxLen EMPTY ≤ 31 ∧
    (auxiliary EMPTY).length = auxLen EMPTY :=
  C10_slice_in_bounds EMPTY (by decide) (by decide) (Or.inl (by decide))

end SmithAddress
